import Mathlib

/-!
# Verification of the milkline secure-credential vault and token lifecycle

Shallow embedding of the `src-tauri` credential vault (`secure_storage.rs`),
the OAuth bridges (`spotify.rs`, `youtube.rs`) and the retry orchestrator
(`error_recovery.rs`, `error.rs`).

Modelling conventions:
* Rust `u64` values are `Nat` with explicit wrap-around (`% 2^64`) where Rust
  release-mode arithmetic would wrap.
* The platform keyring (the external `keyring` crate, an out-of-scope
  collaborator per the spec) is modelled by its documented key-value
  interface: an association from entry names to stored text, where
  `get_password` on a missing name reports `NoEntry`, and `delete_credential`
  on a missing name reports `NoEntry` as well.
* The AES-256-GCM primitive (the external `aes_gcm` crate) is modelled by its
  AEAD contract: an abstract cipher with an encryption function over byte
  lists and a decryption function that inverts it for well-formed keys and
  nonces.  All byte-level wrapping done by the repository itself (base64,
  UTF-8, the JSON envelope, key management) is embedded concretely.
* Randomness (`OsRng.fill_bytes`) is an explicit byte-stream parameter.
* Asynchronous operations are pure: an operation under retry is a function
  from the invocation index to its result, and backoff sleeps are recorded
  as a list of waited durations (in milliseconds).
-/

/-- 2^64, the modulus of Rust `u64` arithmetic. -/
def u64Mod : Nat := 2 ^ 64

/-- Wrapping `u64` addition (Rust release-mode `+`). -/
def u64Add (a b : Nat) : Nat := (a + b) % u64Mod

/-- Wrapping `u64` multiplication (Rust release-mode `*`). -/
def u64Mul (a b : Nat) : Nat := (a * b) % u64Mod

/-- Wrapping `u64` subtraction (Rust release-mode `-`), for `a, b < 2^64`.
In debug builds Rust would instead panic when `b > a`; the wrapping result is
what release builds compute. -/
def u64Sub (a b : Nat) : Nat := (a + (u64Mod - b % u64Mod)) % u64Mod

/-- The umbrella error type of the application (`error.rs`, `MilkError`).
`FileSystem` carries the rendered `std::io::Error` text. -/
inductive MilkError where
  | FileSystem (msg : String)
  | InvalidPath (msg : String)
  | PermissionDenied (msg : String)
  | DiskFull (msg : String)
  | CorruptedFile (msg : String)
  | AuthenticationFailed (msg : String)
  | RateLimitExceeded
  | NetworkTimeout (msg : String)
  | InvalidResponse (msg : String)
  | NetworkError (msg : String)
  | UnsupportedFormat (msg : String)
  | DecodeError (msg : String)
  | AudioDeviceUnavailable
  | InvalidConfig (msg : String)
  | ConfigParseError (msg : String)
  | MissingConfig (msg : String)
  | SkinParseError (msg : String)
  | InvalidSkinFormat (msg : String)
  | MissingSkinAssets (msg : String)
  | MetadataError (msg : String)
  | PlaylistNotFound (msg : String)
  | InvalidPlaylistOperation (msg : String)
  | SecureStorageError (msg : String)
  | Internal (msg : String)
  | Other (msg : String)
deriving DecidableEq, Repr

/-- `MilkError::is_recoverable` from `error.rs` lines 106-115: exactly
network timeouts, rate limiting, corrupted files, skin parse errors and
metadata errors are recoverable. -/
def MilkError.is_recoverable : MilkError → Bool
  | .NetworkTimeout _ => true
  | .RateLimitExceeded => true
  | .CorruptedFile _ => true
  | .SkinParseError _ => true
  | .MetadataError _ => true
  | _ => false

/-- The `Display` rendering of `MilkError` (the `#[error]` format strings of
`error.rs`), used by `retry_with_backoff` to record the last error text. -/
def MilkError.message : MilkError → String
  | .FileSystem m => "File system error: " ++ m
  | .InvalidPath m => "Invalid path: " ++ m
  | .PermissionDenied m => "Permission denied: " ++ m
  | .DiskFull m => "Disk full: unable to save " ++ m
  | .CorruptedFile m => "Corrupted file: " ++ m
  | .AuthenticationFailed m => "Authentication failed: " ++ m
  | .RateLimitExceeded => "API rate limit exceeded"
  | .NetworkTimeout m => "Network timeout: " ++ m
  | .InvalidResponse m => "Invalid API response: " ++ m
  | .NetworkError m => "Network error: " ++ m
  | .UnsupportedFormat m => "Unsupported audio format: " ++ m
  | .DecodeError m => "Audio decode error: " ++ m
  | .AudioDeviceUnavailable => "Audio device unavailable"
  | .InvalidConfig m => "Invalid configuration value: " ++ m
  | .ConfigParseError m => "Configuration parse error: " ++ m
  | .MissingConfig m => "Missing required configuration: " ++ m
  | .SkinParseError m => "Skin parse error: " ++ m
  | .InvalidSkinFormat m => "Invalid skin format: " ++ m
  | .MissingSkinAssets m => "Missing skin assets: " ++ m
  | .MetadataError m => "Metadata extraction failed: " ++ m
  | .PlaylistNotFound m => "Playlist not found: " ++ m
  | .InvalidPlaylistOperation m => "Invalid playlist operation: " ++ m
  | .SecureStorageError m => "Secure storage error: " ++ m
  | .Internal m => "Internal error: " ++ m
  | .Other m => m

/-- `MAX_RETRIES` from `error_recovery.rs`. -/
def MAX_RETRIES : Nat := 3

/-- `BASE_DELAY_MS` from `error_recovery.rs`. -/
def BASE_DELAY_MS : Nat := 1000

/-- Observable outcome of `ErrorRecovery::retry_with_backoff`: the returned
result, the sequence of backoff sleeps performed (ms), and the number of
times the wrapped operation was invoked. -/
structure RetryOutcome (T : Type) where
  result : Except MilkError T
  delays : List Nat
  calls : Nat

/-- The `while attempts < MAX_RETRIES` loop of
`ErrorRecovery::retry_with_backoff` (`error_recovery.rs` lines 100-158).
`results i` is the outcome of the `(i+1)`-th invocation of the operation.
`attempts` counts failed invocations so far, as in the source. -/
def retryLoop {T : Type} (results : Nat → Except MilkError T) (attempts : Nat)
    (lastError : Option String) (delays : List Nat) : RetryOutcome T :=
  if h : attempts < MAX_RETRIES then
    match results attempts with
    | .ok v => ⟨.ok v, delays, attempts + 1⟩
    | .error e =>
      if e.is_recoverable then
        if attempts + 1 < MAX_RETRIES then
          retryLoop results (attempts + 1) (some e.message)
            (delays ++ [BASE_DELAY_MS * 2 ^ (attempts + 1 - 1)])
        else
          retryLoop results (attempts + 1) (some e.message) delays
      else ⟨.error e, delays, attempts + 1⟩
  else ⟨.error (.Internal (lastError.getD "Unknown error")), delays, attempts⟩
termination_by MAX_RETRIES - attempts
decreasing_by all_goals omega

/-- `ErrorRecovery::retry_with_backoff`: run the loop from zero attempts. -/
def retry_with_backoff {T : Type} (results : Nat → Except MilkError T) :
    RetryOutcome T :=
  retryLoop results 0 none []

/-- The per-service API error type (`spotify.rs`, `ApiError`), shared by the
YouTube bridge. -/
inductive ApiError where
  | NetworkError (msg : String)
  | AuthenticationError (msg : String)
  | ParseError (msg : String)
  | StorageError (msg : String)
  | TokenExpired
  | NoActivePlayback
deriving DecidableEq, Repr

/-- Rust `char::is_ascii_digit`. -/
def isAsciiDigit (c : Char) : Bool := 48 ≤ c.toNat && c.toNat ≤ 57

/-- Model of Rust `str::parse::<u64>`: an optional leading `+`, then one or
more ASCII digits, rejecting values that overflow `u64`. -/
def parseU64 (s : List Char) : Option Nat :=
  match s with
  | [] => none
  | c :: rest =>
    let ds := if c.toNat = 43 then rest else c :: rest
    if ds ≠ [] ∧ ds.all isAsciiDigit then
      let v := ds.foldl (fun a ch => a * 10 + (ch.toNat - 48)) 0
      if v < u64Mod then some v else none
    else none

/-- Rust `str::trim_start_matches("PT")`: repeatedly strips a leading `PT`. -/
def trimStartMatchesPT : List Char → List Char
  | 'P' :: 'T' :: rest => trimStartMatchesPT rest
  | s => s

/-- The character walk of `YouTubeBridge::parse_duration` (`youtube.rs` lines
159-175): accumulate digits in `cur`, flush on each unit letter, treat any
other non-digit as a format error.  Returns the final wrapped `u64`
millisecond count. -/
def parseDurationGo : List Char → Nat → Nat → Nat → List Char → Except ApiError Nat
  | [], h, m, s, _cur =>
    .ok (u64Mul (u64Add (u64Add (u64Mul h 3600) (u64Mul m 60)) s) 1000)
  | ch :: rest, h, m, s, cur =>
    if isAsciiDigit ch then parseDurationGo rest h m s (cur ++ [ch])
    else
      match parseU64 cur with
      | none => .error (.ParseError "Invalid duration number")
      | some num =>
        if ch = 'H' then parseDurationGo rest num m s []
        else if ch = 'M' then parseDurationGo rest h num s []
        else if ch = 'S' then parseDurationGo rest h m num []
        else .error (.ParseError "Invalid duration format")

/-- `YouTubeBridge::parse_duration` (`youtube.rs` lines 149-178). -/
def parse_duration (s : String) : Except ApiError Nat :=
  parseDurationGo (trimStartMatchesPT s.data) 0 0 0 []

/-- Little-endian decimal digits mapped to characters, most significant
first; empty for 0 (handled in `decString`). -/
def decChars (n : Nat) : List Char :=
  ((Nat.digits 10 n).map (fun d => Char.ofNat (48 + d))).reverse

/-- Model of Rust `u64::to_string`: standard decimal rendering. -/
def decString (n : Nat) : String :=
  if n = 0 then "0" else String.mk (decChars n)

/-- The standard base64 alphabet used by `base64::engine::general_purpose::STANDARD`. -/
def b64Alphabet : List Char :=
  "ABCDEFGHIJKLMNOPQRSTUVWXYZabcdefghijklmnopqrstuvwxyz0123456789+/".data

/-- Character for a six-bit group. -/
def b64Char (i : Nat) : Char := b64Alphabet.getD i '/'

/-- Inverse alphabet lookup (strict: `none` for any non-alphabet character,
including the padding `=`). -/
def b64Index (c : Char) : Option Nat :=
  let n := c.toNat
  if 65 ≤ n ∧ n ≤ 90 then some (n - 65)
  else if 97 ≤ n ∧ n ≤ 122 then some (26 + (n - 97))
  else if 48 ≤ n ∧ n ≤ 57 then some (52 + (n - 48))
  else if n = 43 then some 62
  else if n = 47 then some 63
  else none

/-- Standard base64 encoding with `=` padding
(`general_purpose::STANDARD.encode`), over byte values. -/
def base64Encode : List Nat → List Char
  | [] => []
  | [b0] => [b64Char (b0 / 4), b64Char (b0 % 4 * 16), '=', '=']
  | [b0, b1] => [b64Char (b0 / 4), b64Char (b0 % 4 * 16 + b1 / 16), b64Char (b1 % 16 * 4), '=']
  | b0 :: b1 :: b2 :: rest =>
    b64Char (b0 / 4) :: b64Char (b0 % 4 * 16 + b1 / 16) ::
    b64Char (b1 % 16 * 4 + b2 / 64) :: b64Char (b2 % 64) :: base64Encode rest

/-- Standard base64 decoding (`general_purpose::STANDARD.decode`): strict
about length (multiple of four), canonical padding, and zero trailing bits. -/
def base64Decode : List Char → Option (List Nat)
  | [] => some []
  | c0 :: c1 :: c2 :: c3 :: rest =>
    if c2 = '=' ∧ c3 = '=' ∧ rest = [] then
      match b64Index c0, b64Index c1 with
      | some s0, some s1 => if s1 % 16 = 0 then some [s0 * 4 + s1 / 16] else none
      | _, _ => none
    else if c3 = '=' ∧ rest = [] then
      match b64Index c0, b64Index c1, b64Index c2 with
      | some s0, some s1, some s2 =>
        if s2 % 4 = 0 then some [s0 * 4 + s1 / 16, s1 % 16 * 16 + s2 / 4] else none
      | _, _, _ => none
    else
      match b64Index c0, b64Index c1, b64Index c2, b64Index c3 with
      | some s0, some s1, some s2, some s3 =>
        match base64Decode rest with
        | some bs => some ((s0 * 4 + s1 / 16) :: (s1 % 16 * 16 + s2 / 4) :: (s2 % 4 * 64 + s3) :: bs)
        | none => none
      | _, _, _, _ => none
  | _ => none

/-- UTF-8 encoding of one scalar value (Rust `str::as_bytes`), written with
division/remainder arithmetic over `Nat` byte values. -/
def utf8EncodeChar (c : Char) : List Nat :=
  let n := c.toNat
  if n < 128 then [n]
  else if n < 2048 then [192 + n / 64, 128 + n % 64]
  else if n < 65536 then [224 + n / 4096, 128 + n / 64 % 64, 128 + n % 64]
  else [240 + n / 262144, 128 + n / 4096 % 64, 128 + n / 64 % 64, 128 + n % 64]

/-- UTF-8 encoding of a string's characters. -/
def utf8Encode : List Char → List Nat
  | [] => []
  | c :: cs => utf8EncodeChar c ++ utf8Encode cs

/-- Decode the tail of a two-byte UTF-8 sequence with lead byte `b`
(lead range `[194, 224)`, so the value cannot be overlong). -/
def utf8Dec2 (b : Nat) : List Nat → Option (Nat × List Nat)
  | b1 :: rest =>
    if 128 ≤ b1 ∧ b1 < 192 then some ((b - 192) * 64 + (b1 - 128), rest) else none
  | [] => none

/-- Decode the tail of a three-byte UTF-8 sequence with lead byte `b`,
rejecting overlong forms and surrogate code points. -/
def utf8Dec3 (b : Nat) : List Nat → Option (Nat × List Nat)
  | b1 :: b2 :: rest =>
    if (128 ≤ b1 ∧ b1 < 192) ∧ (128 ≤ b2 ∧ b2 < 192) then
      if (b - 224) * 4096 + (b1 - 128) * 64 + (b2 - 128) < 2048 then none
      else if 55296 ≤ (b - 224) * 4096 + (b1 - 128) * 64 + (b2 - 128) ∧
          (b - 224) * 4096 + (b1 - 128) * 64 + (b2 - 128) < 57344 then none
      else some ((b - 224) * 4096 + (b1 - 128) * 64 + (b2 - 128), rest)
    else none
  | _ => none

/-- Decode the tail of a four-byte UTF-8 sequence with lead byte `b`,
rejecting overlong forms and values beyond the Unicode range. -/
def utf8Dec4 (b : Nat) : List Nat → Option (Nat × List Nat)
  | b1 :: b2 :: b3 :: rest =>
    if (128 ≤ b1 ∧ b1 < 192) ∧ (128 ≤ b2 ∧ b2 < 192) ∧ (128 ≤ b3 ∧ b3 < 192) then
      if (b - 240) * 262144 + (b1 - 128) * 4096 + (b2 - 128) * 64 + (b3 - 128) < 65536 then
        none
      else if (b - 240) * 262144 + (b1 - 128) * 4096 + (b2 - 128) * 64 + (b3 - 128) <
          1114112 then
        some ((b - 240) * 262144 + (b1 - 128) * 4096 + (b2 - 128) * 64 + (b3 - 128), rest)
      else none
    else none
  | _ => none

/-- Decode one UTF-8 scalar value from the head of a byte list, returning it
with the remaining bytes: the first step of Rust `String::from_utf8`
validation (strict about stray continuation bytes and invalid leads). -/
def utf8DecodeOne : List Nat → Option (Nat × List Nat)
  | [] => none
  | b :: rest =>
    if b < 128 then some (b, rest)
    else if b < 194 then none
    else if b < 224 then utf8Dec2 b rest
    else if b < 240 then utf8Dec3 b rest
    else if b < 245 then utf8Dec4 b rest
    else none

/-- Iterate `utf8DecodeOne`; each successful step consumes at least one byte,
so fuel equal to the list length always suffices. -/
def utf8DecodeLoop : Nat → List Nat → Option (List Char)
  | _, [] => some []
  | 0, _ :: _ => none
  | fuel + 1, b :: rest =>
    match utf8DecodeOne (b :: rest) with
    | none => none
    | some (n, rest1) =>
      match utf8DecodeLoop fuel rest1 with
      | some cs => some (Char.ofNat n :: cs)
      | none => none

/-- Strict UTF-8 decoding (Rust `String::from_utf8`): rejects stray
continuation bytes, overlong forms, surrogate code points and out-of-range
values. -/
def utf8Decode (l : List Nat) : Option (List Char) :=
  utf8DecodeLoop l.length l

/-- The encrypted envelope (`secure_storage.rs`, `struct EncryptedData`):
base64 text of the nonce and of the ciphertext. -/
structure EncryptedData where
  nonce : String
  ciphertext : String
deriving DecidableEq, Repr

/-- Leading characters of the serde_json rendering of `EncryptedData`. -/
def jsonHead : String := "\x7b\"nonce\":\""

/-- Characters between the two fields in the serde_json rendering. -/
def jsonMid : String := "\",\"ciphertext\":\""

/-- Trailing characters of the serde_json rendering. -/
def jsonTail : String := "\"\x7d"

/-- `serde_json::to_string` of an `EncryptedData` value.  Both fields are
base64 text, which JSON string escaping leaves unchanged. -/
def encryptedDataJson (d : EncryptedData) : String :=
  jsonHead ++ d.nonce ++ jsonMid ++ d.ciphertext ++ jsonTail

/-- Consume an exact expected character sequence. -/
def stripExact : List Char → List Char → Option (List Char)
  | [], s => some s
  | _, [] => none
  | p :: ps, c :: cs => if c = p then stripExact ps cs else none

/-- Split a character list at the first `"` (the end of a JSON string
field), returning the content before it and the remainder after it. -/
def splitAtQuote : List Char → Option (List Char × List Char)
  | [] => none
  | c :: rest =>
    if c = '"' then some ([], rest)
    else
      match splitAtQuote rest with
      | some (v, r) => some (c :: v, r)
      | none => none

/-- `serde_json::from_str::<EncryptedData>` on the envelope shape produced by
`encryptedDataJson` (the two base64 string fields contain no characters that
JSON escapes). -/
def parseEncryptedData (s : List Char) : Option EncryptedData :=
  match stripExact jsonHead.data s with
  | none => none
  | some s1 =>
    match splitAtQuote s1 with
    | none => none
    | some (nonceChars, s2) =>
      match stripExact jsonMid.data.tail s2 with
      | none => none
      | some s3 =>
        match splitAtQuote s3 with
        | none => none
        | some (ctChars, s4) =>
          if s4 = jsonTail.data.tail then some ⟨String.mk nonceChars, String.mk ctChars⟩
          else none

/-- Keyring error conditions relevant to the vault (`keyring::Error`).
`NoEntry` is what the external store reports for a missing credential, both
on `get_password` and on `delete_credential`. -/
inductive KeyringError where
  | NoEntry
deriving DecidableEq, Repr

/-- `secure_storage.rs`, `enum StorageError`.  `KeyringError` wraps the
external store's error; the `String` payloads carry rendered messages. -/
inductive StorageError where
  | KeyringError (e : KeyringError)
  | EncryptionError (msg : String)
  | DecryptionError (msg : String)
  | Base64Error
deriving DecidableEq, Repr

/-- The `Display` rendering of `StorageError` (`secure_storage.rs` lines
34-43), as observed by the bridges through `e.to_string()`. -/
def storageErrorMessage : StorageError → String
  | .KeyringError _ => "Keyring error: No matching entry found in secure storage"
  | .EncryptionError m => "Encryption error: " ++ m
  | .DecryptionError m => "Decryption error: " ++ m
  | .Base64Error => "Base64 error: invalid base64 data"

/-- State of the external platform credential store for the fixed service
name `milk-player`: entry name to stored text.  Writes shadow earlier
entries (`krGet` reads the most recent). -/
def Keyring : Type := List (String × String)

/-- `Entry::get_password`: the most recently stored text for a name, or
`none` when the store reports `NoEntry`. -/
def krGet (kr : Keyring) (name : String) : Option String :=
  (List.find? (fun p => p.1 == name) kr).map (fun p => p.2)

/-- `Entry::set_password`: store text under a name (last write wins). -/
def krSet (kr : Keyring) (name value : String) : Keyring :=
  (name, value) :: kr

/-- `ENCRYPTION_KEY_NAME` from `secure_storage.rs`. -/
def ENCRYPTION_KEY_NAME : String := "milk-encryption-key"

/-- 32 fresh random bytes drawn from an explicit random stream (models
`OsRng.fill_bytes` into a length-`n` buffer). -/
def genBytes (n : Nat) (rng : Nat → Nat) : List Nat :=
  (List.range n).map (fun i => rng i % 256)

/-- The AEAD contract of the external `aes_gcm::Aes256Gcm` primitive
(spec §4.2): encryption over (key, nonce, plaintext bytes) producing
ciphertext bytes, and decryption inverting it for a 32-byte key and a
12-byte nonce.  `enc_bytes_lt` records that ciphertext is made of bytes. -/
structure AeadCipher where
  enc : List Nat → List Nat → List Nat → List Nat
  dec : List Nat → List Nat → List Nat → Option (List Nat)
  enc_bytes_lt : ∀ k n pt, (∀ b ∈ pt, b < 256) → ∀ b ∈ enc k n pt, b < 256
  dec_enc : ∀ k n pt, k.length = 32 → n.length = 12 → (∀ b ∈ pt, b < 256) →
    dec k n (enc k n pt) = some pt

/-- A concrete cipher satisfying the AEAD contract, used to instantiate the
abstract primitive on concrete runs. -/
def plainCipher : AeadCipher where
  enc := fun _ _ pt => pt
  dec := fun _ _ ct => some ct
  enc_bytes_lt := fun _ _ _ h => h
  dec_enc := fun _ _ _ _ _ _ => rfl

namespace SecureStorage

/-- `PlatformSecureStorage::get_or_create_encryption_key` (`secure_storage.rs`
lines 75-106).  Reads the master-key entry; a present value that decodes to
exactly 32 bytes is returned; otherwise (decode failure or wrong length, or
a missing entry) a fresh 32-byte key is generated, stored base64-encoded,
and returned.  `rng` supplies the fresh random bytes. -/
def get_or_create_encryption_key (kr : Keyring) (rng : Nat → Nat) :
    Except StorageError (List Nat) × Keyring :=
  match krGet kr ENCRYPTION_KEY_NAME with
  | some keyB64 =>
    match base64Decode keyB64.data with
    | some key =>
      if key.length = 32 then (.ok key, kr)
      else
        let key := genBytes 32 rng
        (.ok key, krSet kr ENCRYPTION_KEY_NAME (String.mk (base64Encode key)))
    | none =>
      let key := genBytes 32 rng
      (.ok key, krSet kr ENCRYPTION_KEY_NAME (String.mk (base64Encode key)))
  | none =>
    let key := genBytes 32 rng
    (.ok key, krSet kr ENCRYPTION_KEY_NAME (String.mk (base64Encode key)))

/-- `PlatformSecureStorage::encrypt` (`secure_storage.rs` lines 109-133):
obtain the master key, draw a fresh 12-byte nonce from `nRng`, AEAD-encrypt
the UTF-8 bytes of the plaintext, and serialize the base64 envelope. -/
def encrypt (C : AeadCipher) (kr : Keyring) (kRng nRng : Nat → Nat)
    (plaintext : String) : Except StorageError String × Keyring :=
  match get_or_create_encryption_key kr kRng with
  | (.error e, kr1) => (.error e, kr1)
  | (.ok keyBytes, kr1) =>
    let nonceBytes := genBytes 12 nRng
    let ciphertext := C.enc keyBytes nonceBytes (utf8Encode plaintext.data)
    let d : EncryptedData :=
      ⟨String.mk (base64Encode nonceBytes), String.mk (base64Encode ciphertext)⟩
    (.ok (encryptedDataJson d), kr1)

/-- `PlatformSecureStorage::decrypt` (`secure_storage.rs` lines 136-159):
obtain the master key, parse the envelope, base64-decode both fields,
AEAD-decrypt, and re-validate UTF-8. -/
def decrypt (C : AeadCipher) (kr : Keyring) (kRng : Nat → Nat)
    (encrypted : String) : Except StorageError String × Keyring :=
  match get_or_create_encryption_key kr kRng with
  | (.error e, kr1) => (.error e, kr1)
  | (.ok keyBytes, kr1) =>
    match parseEncryptedData encrypted.data with
    | none => (.error (.DecryptionError "invalid envelope"), kr1)
    | some d =>
      match base64Decode d.nonce.data with
      | none => (.error .Base64Error, kr1)
      | some nonceBytes =>
        match base64Decode d.ciphertext.data with
        | none => (.error .Base64Error, kr1)
        | some ciphertext =>
          match C.dec keyBytes nonceBytes ciphertext with
          | none => (.error (.DecryptionError "aead error"), kr1)
          | some ptBytes =>
            match utf8Decode ptBytes with
            | none => (.error (.DecryptionError "invalid utf-8"), kr1)
            | some chars => (.ok (String.mk chars), kr1)

/-- `SecureStorage::store for PlatformSecureStorage` (`secure_storage.rs`
lines 163-172): encrypt the value and write the envelope under `name`. -/
def store (C : AeadCipher) (kr : Keyring) (kRng nRng : Nat → Nat)
    (name value : String) : Except StorageError Unit × Keyring :=
  match encrypt C kr kRng nRng value with
  | (.error e, kr1) => (.error e, kr1)
  | (.ok encText, kr1) => (.ok (), krSet kr1 name encText)

/-- `SecureStorage::retrieve for PlatformSecureStorage` (`secure_storage.rs`
lines 174-187): a missing entry (the store's `NoEntry`, and likewise its
`Ambiguous` condition) is `Ok(None)`; a present entry is decrypted, with
decryption errors propagated. -/
def retrieve (C : AeadCipher) (kr : Keyring) (kRng : Nat → Nat)
    (name : String) : Except StorageError (Option String) × Keyring :=
  match krGet kr name with
  | some encText =>
    match decrypt C kr kRng encText with
    | (.ok v, kr1) => (.ok (some v), kr1)
    | (.error e, kr1) => (.error e, kr1)
  | none => (.ok none, kr)

/-- `SecureStorage::delete for PlatformSecureStorage` (`secure_storage.rs`
lines 189-193): `entry.delete_credential()` with every error mapped into
`StorageError::KeyringError` and propagated by `?`.  The external store
reports `NoEntry` when no credential exists under `name`. -/
def delete (kr : Keyring) (name : String) : Except StorageError Unit × Keyring :=
  match krGet kr name with
  | none => (.error (.KeyringError .NoEntry), kr)
  | some _ => (.ok (), kr.filter (fun p => !(p.1 == name)))

end SecureStorage

/-- The envelope text produced by encrypting `v` under master key `k` with the
nonce stream `nRng` (what `SecureStorage.encrypt` stores). -/
def encStr (C : AeadCipher) (k : List Nat) (nRng : Nat → Nat) (v : String) : String :=
  encryptedDataJson
    ⟨String.mk (base64Encode (genBytes 12 nRng)),
     String.mk (base64Encode (C.enc k (genBytes 12 nRng) (utf8Encode v.data)))⟩

/-- The master-key entry holds text that decodes to the 32-byte key `k`. -/
def keyValid (kr : Keyring) (k : List Nat) : Prop :=
  ∃ s, krGet kr ENCRYPTION_KEY_NAME = some s ∧
    base64Decode s.data = some k ∧ k.length = 32

/-- The three secret names a bridge keeps in the vault (`spotify.rs` lines
9-11 and `youtube.rs` lines 8-10). -/
structure BridgeKeys where
  tokenKey : String
  refreshKey : String
  expiryKey : String
deriving DecidableEq, Repr

/-- Key names of `SpotifyBridge`. -/
def spotifyKeys : BridgeKeys :=
  ⟨"spotify_access_token", "spotify_refresh_token", "spotify_token_expiry"⟩

/-- Key names of `YouTubeBridge`. -/
def youtubeKeys : BridgeKeys :=
  ⟨"youtube_access_token", "youtube_refresh_token", "youtube_token_expiry"⟩

/-- OAuth token response (`spotify.rs`, `struct Token`). -/
structure Token where
  access_token : String
  token_type : String
  expires_in : Nat
  refresh_token : Option String
  scope : Option String
deriving DecidableEq, Repr

namespace Bridge

/-- `store_token` (`spotify.rs` lines 103-128, duplicated in `youtube.rs`
lines 56-81): store the access token; store the refresh token only when the
token carries one; store `now + expires_in` as decimal text.  `nR1`-`nR3`
are the nonce streams of the up-to-three encryptions. -/
def store_token (C : AeadCipher) (kr : Keyring) (kRng nR1 nR2 nR3 : Nat → Nat)
    (keys : BridgeKeys) (token : Token) (now : Nat) :
    Except ApiError Unit × Keyring :=
  match SecureStorage.store C kr kRng nR1 keys.tokenKey token.access_token with
  | (.error e, kr1) => (.error (.StorageError (storageErrorMessage e)), kr1)
  | (.ok _, kr1) =>
    match
      (match token.refresh_token with
       | some rt => SecureStorage.store C kr1 kRng nR2 keys.refreshKey rt
       | none => (.ok (), kr1)) with
    | (.error e, kr2) => (.error (.StorageError (storageErrorMessage e)), kr2)
    | (.ok _, kr2) =>
      let expiry := u64Add now token.expires_in
      match SecureStorage.store C kr2 kRng nR3 keys.expiryKey (decString expiry) with
      | (.error e, kr3) => (.error (.StorageError (storageErrorMessage e)), kr3)
      | (.ok _, kr3) => (.ok (), kr3)

/-- `is_token_expired` (`spotify.rs` lines 145-166, duplicated in
`youtube.rs` lines 98-118): no expiry record means expired; otherwise parse
the stored decimal and compare `now >= expiry - 60` in `u64` arithmetic. -/
def is_token_expired (C : AeadCipher) (kr : Keyring) (kRng : Nat → Nat)
    (keys : BridgeKeys) (now : Nat) : Except ApiError Bool × Keyring :=
  match SecureStorage.retrieve C kr kRng keys.expiryKey with
  | (.error e, kr1) => (.error (.StorageError (storageErrorMessage e)), kr1)
  | (.ok none, kr1) => (.ok true, kr1)
  | (.ok (some expiryStr), kr1) =>
    match parseU64 expiryStr.data with
    | none => (.error (.ParseError "Invalid expiry"), kr1)
    | some expiry => (.ok (decide (now ≥ u64Sub expiry 60)), kr1)

/-- `refresh_token` (`spotify.rs` lines 335-377, duplicated in `youtube.rs`
lines 232-269): require a stored refresh token; exchange it (the vendor's
HTTP outcome is the `response` parameter: network, HTTP and JSON failures
arrive as `.error`); when the response token carries no refresh token, put
the previous one back; persist via `store_token` at time `now`. -/
def refresh_token (C : AeadCipher) (kr : Keyring) (kRng nR1 nR2 nR3 : Nat → Nat)
    (keys : BridgeKeys) (response : Except ApiError Token) (now : Nat) :
    Except ApiError Token × Keyring :=
  match SecureStorage.retrieve C kr kRng keys.refreshKey with
  | (.error e, kr1) => (.error (.StorageError (storageErrorMessage e)), kr1)
  | (.ok none, kr1) => (.error (.AuthenticationError "No refresh token found"), kr1)
  | (.ok (some refreshTok), kr1) =>
    match response with
    | .error e => (.error e, kr1)
    | .ok t0 =>
      let token :=
        match t0.refresh_token with
        | none => { t0 with refresh_token := some refreshTok }
        | some _ => t0
      match store_token C kr1 kRng nR1 nR2 nR3 keys token now with
      | (.error e, kr2) => (.error e, kr2)
      | (.ok _, kr2) => (.ok token, kr2)

end Bridge

/-! ## Helper lemmas: retry loop -/

theorem retryLoop_unfold {T : Type} (results : Nat → Except MilkError T)
    (attempts : Nat) (lastError : Option String) (delays : List Nat) :
    retryLoop results attempts lastError delays =
      if _h : attempts < MAX_RETRIES then
        match results attempts with
        | .ok v => ⟨.ok v, delays, attempts + 1⟩
        | .error e =>
          if e.is_recoverable then
            if attempts + 1 < MAX_RETRIES then
              retryLoop results (attempts + 1) (some e.message)
                (delays ++ [BASE_DELAY_MS * 2 ^ (attempts + 1 - 1)])
            else
              retryLoop results (attempts + 1) (some e.message) delays
          else ⟨.error e, delays, attempts + 1⟩
      else ⟨.error (.Internal (lastError.getD "Unknown error")), delays, attempts⟩ := by
  rw [retryLoop]

theorem retry_retried_recoverable {T : Type} (results : Nat → Except MilkError T)
    (i : Nat) (h : i + 1 < (retry_with_backoff results).calls) :
    ∃ e, results i = .error e ∧ e.is_recoverable = true := by
  rw [retry_with_backoff, retryLoop_unfold] at h
  rcases hr0 : results 0 with e0 | v0 <;> rw [hr0] at h
  · by_cases hrec0 : e0.is_recoverable
    · simp only [MAX_RETRIES, BASE_DELAY_MS, hrec0, if_true] at h
      norm_num at h
      rw [retryLoop_unfold] at h
      rcases hr1 : results 1 with e1 | v1 <;> rw [hr1] at h
      · by_cases hrec1 : e1.is_recoverable
        · simp only [MAX_RETRIES, BASE_DELAY_MS, hrec1, if_true] at h
          norm_num at h
          rw [retryLoop_unfold] at h
          have hfin : i = 0 ∨ i = 1 := by
            rcases hr2 : results 2 with e2 | v2 <;> rw [hr2] at h
            · by_cases hrec2 : e2.is_recoverable
              · simp only [MAX_RETRIES, hrec2, if_true] at h
                norm_num at h
                rw [retryLoop_unfold] at h
                simp only [MAX_RETRIES] at h
                norm_num at h
                omega
              · simp only [hrec2, Bool.false_eq_true, if_false] at h
                simp only [MAX_RETRIES] at h
                norm_num at h
                omega
            · simp only [MAX_RETRIES] at h
              norm_num at h
              omega
          rcases hfin with rfl | rfl
          · exact ⟨e0, hr0, hrec0⟩
          · exact ⟨e1, hr1, hrec1⟩
        · simp only [Bool.not_eq_true] at hrec1
          simp only [hrec1, Bool.false_eq_true, if_false, MAX_RETRIES] at h
          norm_num at h
          have : i = 0 := by omega
          subst this
          exact ⟨e0, hr0, hrec0⟩
      · simp only [MAX_RETRIES] at h
        norm_num at h
        have : i = 0 := by omega
        subst this
        exact ⟨e0, hr0, hrec0⟩
    · simp only [Bool.not_eq_true] at hrec0
      simp only [hrec0, Bool.false_eq_true, if_false, MAX_RETRIES] at h
      norm_num at h
  · simp only [MAX_RETRIES] at h
    norm_num at h

/-! ## Helper lemmas: duration parsing -/

theorem parseDurationGo_error (l : List Char) :
    ∀ h m s cur, (∃ c ∈ l, isAsciiDigit c = false ∧ c ≠ 'H' ∧ c ≠ 'M' ∧ c ≠ 'S') →
    ∃ msg, parseDurationGo l h m s cur = .error (.ParseError msg) := by
  induction l with
  | nil => intro h m s cur hbad; simp at hbad
  | cons c rest ih =>
    intro h m s cur hbad
    rcases hbad with ⟨c', hc', hnd, hH, hM, hS⟩
    by_cases hd : isAsciiDigit c
    · have hc'rest : c' ∈ rest := by
        rcases List.mem_cons.mp hc' with rfl | hr
        · rw [hd] at hnd; exact absurd hnd (by simp)
        · exact hr
      simp only [parseDurationGo, hd, if_true]
      exact ih h m s (cur ++ [c]) ⟨c', hc'rest, hnd, hH, hM, hS⟩
    · simp only [parseDurationGo, hd, Bool.false_eq_true, if_false]
      cases hpu : parseU64 cur with
      | none => exact ⟨"Invalid duration number", rfl⟩
      | some num =>
        by_cases hcH : c = 'H'
        · have hc'rest : c' ∈ rest := by
            rcases List.mem_cons.mp hc' with rfl | hr
            · exact absurd hcH hH
            · exact hr
          simp only [hcH, if_true]
          exact ih num m s [] ⟨c', hc'rest, hnd, hH, hM, hS⟩
        · by_cases hcM : c = 'M'
          · have hc'rest : c' ∈ rest := by
              rcases List.mem_cons.mp hc' with rfl | hr
              · exact absurd hcM hM
              · exact hr
            simp only [hcH, if_false, hcM, if_true]
            exact ih h num s [] ⟨c', hc'rest, hnd, hH, hM, hS⟩
          · by_cases hcS : c = 'S'
            · have hc'rest : c' ∈ rest := by
                rcases List.mem_cons.mp hc' with rfl | hr
                · exact absurd hcS hS
                · exact hr
              simp only [hcH, if_false, hcM, hcS, if_true]
              exact ih h m num [] ⟨c', hc'rest, hnd, hH, hM, hS⟩
            · exact ⟨"Invalid duration format", by simp only [hcH, hcM, hcS, if_false]⟩

/-! ## Helper lemmas: decimal text round trip -/

theorem toNat_ofNat_valid {n : Nat} (h : n.isValidChar) : (Char.ofNat n).toNat = n := by
  rw [Char.ofNat, dif_pos h]; rfl

theorem foldr_ofDigits (L : List Nat) :
    L.foldr (fun d acc => acc * 10 + d) 0 = Nat.ofDigits 10 L := by
  induction L with
  | nil => simp [Nat.ofDigits_nil]
  | cons d L ih => simp [Nat.ofDigits_cons, ih]; ring

theorem decChars_toNat (n : Nat) :
    ∀ c ∈ decChars n, 48 ≤ c.toNat ∧ c.toNat ≤ 57 := by
  intro c hc
  rw [decChars, List.mem_reverse, List.mem_map] at hc
  rcases hc with ⟨d, hd, rfl⟩
  have hdlt : d < 10 := Nat.digits_lt_base (by norm_num) hd
  have hvalid : (48 + d).isValidChar := Or.inl (by omega)
  rw [toNat_ofNat_valid hvalid]
  omega

theorem parseU64_decString (n : Nat) (hn : n < u64Mod) :
    parseU64 (decString n).data = some n := by
  by_cases h0 : n = 0
  · subst h0; rfl
  · rw [decString, if_neg h0]
    have hne : decChars n ≠ [] := by
      rw [decChars]
      simp only [ne_eq, List.reverse_eq_nil_iff, List.map_eq_nil_iff]
      exact Nat.digits_ne_nil_iff_ne_zero.mpr h0
    rcases hcons : decChars n with _ | ⟨c, rest⟩
    · exact absurd hcons hne
    · show parseU64 (c :: rest) = some n
      simp only [parseU64]
      have hcmem : c ∈ decChars n := by rw [hcons]; exact List.mem_cons_self c rest
      have hc48 := decChars_toNat n c hcmem
      have hc43 : ¬ c.toNat = 43 := by omega
      simp only [hc43, if_false]
      have hall : (c :: rest).all isAsciiDigit = true := by
        rw [← hcons]
        rw [List.all_eq_true]
        intro x hx
        have := decChars_toNat n x hx
        simp only [isAsciiDigit, Bool.and_eq_true, decide_eq_true_eq]
        omega
      simp only [ne_eq, reduceCtorEq, not_false_eq_true, hall, and_true, if_true, true_and]
      have hfold : (c :: rest).foldl (fun a ch => a * 10 + (ch.toNat - 48)) 0 = n := by
        rw [← hcons, decChars, List.foldl_reverse]
        have hmap : (Nat.digits 10 n).map (fun d => Char.ofNat (48 + d)) =
            (Nat.digits 10 n).map (fun d => Char.ofNat (48 + d)) := rfl
        have : ((Nat.digits 10 n).map (fun d => Char.ofNat (48 + d))).foldr
            (fun x y => y * 10 + (x.toNat - 48)) 0 =
            (Nat.digits 10 n).foldr (fun d acc => acc * 10 + d) 0 := by
          rw [List.foldr_map]
          apply List.foldr_ext
          intro d hd acc
          have hdlt : d < 10 := Nat.digits_lt_base (by norm_num) hd
          have hvalid : (48 + d).isValidChar := Or.inl (by omega)
          rw [toNat_ofNat_valid hvalid]
          omega
        rw [this, foldr_ofDigits, Nat.ofDigits_digits]
      rw [hfold, if_pos hn]

/-! ## Helper lemmas: base64 round trip -/

theorem b64Alphabet_length : b64Alphabet.length = 64 := rfl

theorem b64Char_ge (i : Nat) (h : 64 ≤ i) : b64Char i = '/' := by
  rw [b64Char]
  exact List.getD_eq_default _ _ (by rw [b64Alphabet_length]; omega)

theorem b64Index_b64Char : ∀ i < 64, b64Index (b64Char i) = some i := by decide

theorem b64Char_ne_eqsign (i : Nat) : b64Char i ≠ '=' := by
  by_cases h : i < 64
  · revert i h
    decide
  · rw [b64Char_ge i (by omega)]
    decide

theorem b64Char_ne_quote (i : Nat) : b64Char i ≠ '"' := by
  by_cases h : i < 64
  · revert i h
    decide
  · rw [b64Char_ge i (by omega)]
    decide

theorem base64Encode_mem (bs : List Nat) :
    ∀ c ∈ base64Encode bs, c = '=' ∨ ∃ i, c = b64Char i := by
  induction bs using base64Encode.induct with
  | case1 => intro c hc; simp [base64Encode] at hc
  | case2 b0 =>
    intro c hc
    simp only [base64Encode, List.mem_cons, List.not_mem_nil, or_false] at hc
    rcases hc with rfl | rfl | rfl | rfl
    · exact .inr ⟨_, rfl⟩
    · exact .inr ⟨_, rfl⟩
    · exact .inl rfl
    · exact .inl rfl
  | case3 b0 b1 =>
    intro c hc
    simp only [base64Encode, List.mem_cons, List.not_mem_nil, or_false] at hc
    rcases hc with rfl | rfl | rfl | rfl
    · exact .inr ⟨_, rfl⟩
    · exact .inr ⟨_, rfl⟩
    · exact .inr ⟨_, rfl⟩
    · exact .inl rfl
  | case4 b0 b1 b2 rest ih =>
    intro c hc
    simp only [base64Encode, List.mem_cons] at hc
    rcases hc with rfl | rfl | rfl | rfl | hmem
    · exact .inr ⟨_, rfl⟩
    · exact .inr ⟨_, rfl⟩
    · exact .inr ⟨_, rfl⟩
    · exact .inr ⟨_, rfl⟩
    · exact ih c hmem

theorem base64Encode_ne_quote (bs : List Nat) : ∀ c ∈ base64Encode bs, c ≠ '"' := by
  intro c hc
  rcases base64Encode_mem bs c hc with rfl | ⟨i, rfl⟩
  · decide
  · exact b64Char_ne_quote i

theorem base64_decode_encode (bs : List Nat) (hb : ∀ b ∈ bs, b < 256) :
    base64Decode (base64Encode bs) = some bs := by
  induction bs using base64Encode.induct with
  | case1 => rfl
  | case2 b0 =>
    have h0 : b0 < 256 := hb b0 (by simp)
    have e1 := b64Index_b64Char (b0 / 4) (by omega)
    have e2 := b64Index_b64Char (b0 % 4 * 16) (by omega)
    have hz : b0 % 4 * 16 % 16 = 0 := by omega
    simp [base64Encode, base64Decode, e1, e2, hz]
    omega
  | case3 b0 b1 =>
    have h0 : b0 < 256 := hb b0 (by simp)
    have h1 : b1 < 256 := hb b1 (by simp)
    have e1 := b64Index_b64Char (b0 / 4) (by omega)
    have e2 := b64Index_b64Char (b0 % 4 * 16 + b1 / 16) (by omega)
    have e3 := b64Index_b64Char (b1 % 16 * 4) (by omega)
    have n1 : ¬ b64Char (b1 % 16 * 4) = '=' := b64Char_ne_eqsign _
    have hz : b1 % 16 * 4 % 4 = 0 := by omega
    simp [base64Encode, base64Decode, e1, e2, e3, n1, hz]
    constructor <;> omega
  | case4 b0 b1 b2 rest ih =>
    have h0 : b0 < 256 := hb b0 (by simp)
    have h1 : b1 < 256 := hb b1 (by simp)
    have h2 : b2 < 256 := hb b2 (by simp)
    have hrest : ∀ b ∈ rest, b < 256 := fun b hbm => hb b (by simp [hbm])
    have e1 := b64Index_b64Char (b0 / 4) (by omega)
    have e2 := b64Index_b64Char (b0 % 4 * 16 + b1 / 16) (by omega)
    have e3 := b64Index_b64Char (b1 % 16 * 4 + b2 / 64) (by omega)
    have e4 := b64Index_b64Char (b2 % 64) (by omega)
    have n1 : ¬ b64Char (b1 % 16 * 4 + b2 / 64) = '=' := b64Char_ne_eqsign _
    have n2 : ¬ b64Char (b2 % 64) = '=' := b64Char_ne_eqsign _
    simp [base64Encode, base64Decode, e1, e2, e3, e4, n1, n2, ih hrest]
    refine ⟨by omega, by omega, by omega⟩

/-! ## Helper lemmas: UTF-8 round trip -/

theorem utf8EncodeChar_lt (c : Char) : ∀ b ∈ utf8EncodeChar c, b < 256 := by
  have hv : Nat.isValidChar c.toNat := c.valid
  have hlt : c.toNat < 1114112 := by rcases hv with h | ⟨_, h2⟩ <;> omega
  intro b hb
  rw [utf8EncodeChar] at hb
  split_ifs at hb <;> simp only [List.mem_cons, List.not_mem_nil, or_false] at hb <;> omega

theorem utf8Encode_lt (s : List Char) : ∀ b ∈ utf8Encode s, b < 256 := by
  induction s with
  | nil => intro b hb; simp [utf8Encode] at hb
  | cons c cs ih =>
    intro b hb
    rw [utf8Encode, List.mem_append] at hb
    rcases hb with h | h
    · exact utf8EncodeChar_lt c b h
    · exact ih b h

theorem utf8EncodeChar_ne_nil (c : Char) : utf8EncodeChar c ≠ [] := by
  rw [utf8EncodeChar]
  split_ifs <;> simp

theorem utf8DecodeOne_encodeChar (c : Char) (t : List Nat) :
    utf8DecodeOne (utf8EncodeChar c ++ t) = some (c.toNat, t) := by
  have hv : Nat.isValidChar c.toNat := c.valid
  rw [utf8EncodeChar]
  by_cases h1 : c.toNat < 128
  · rw [if_pos h1]
    simp only [List.cons_append, List.nil_append, utf8DecodeOne, if_pos h1]
  · rw [if_neg h1]
    by_cases h2 : c.toNat < 2048
    · rw [if_pos h2]
      have hA : ¬ (192 + c.toNat / 64 < 128) := by omega
      have hB : ¬ (192 + c.toNat / 64 < 194) := by omega
      have hC : 192 + c.toNat / 64 < 224 := by omega
      have hD : 128 ≤ 128 + c.toNat % 64 ∧ 128 + c.toNat % 64 < 192 := by omega
      simp only [List.cons_append, List.nil_append, utf8DecodeOne, if_neg hA, if_neg hB,
        if_pos hC, utf8Dec2, if_pos hD, Option.some.injEq, Prod.mk.injEq, and_true]
      omega
    · rw [if_neg h2]
      by_cases h3 : c.toNat < 65536
      · rw [if_pos h3]
        have hA : ¬ (224 + c.toNat / 4096 < 128) := by omega
        have hB : ¬ (224 + c.toNat / 4096 < 194) := by omega
        have hC : ¬ (224 + c.toNat / 4096 < 224) := by omega
        have hD : 224 + c.toNat / 4096 < 240 := by omega
        have hE : (128 ≤ 128 + c.toNat / 64 % 64 ∧ 128 + c.toNat / 64 % 64 < 192) ∧
            (128 ≤ 128 + c.toNat % 64 ∧ 128 + c.toNat % 64 < 192) := by omega
        have hval : (224 + c.toNat / 4096 - 224) * 4096 + (128 + c.toNat / 64 % 64 - 128) * 64 +
            (128 + c.toNat % 64 - 128) = c.toNat := by omega
        have hover : ¬ ((224 + c.toNat / 4096 - 224) * 4096 +
            (128 + c.toNat / 64 % 64 - 128) * 64 + (128 + c.toNat % 64 - 128) < 2048) := by
          omega
        have hsur : ¬ (55296 ≤ (224 + c.toNat / 4096 - 224) * 4096 +
            (128 + c.toNat / 64 % 64 - 128) * 64 + (128 + c.toNat % 64 - 128) ∧
            (224 + c.toNat / 4096 - 224) * 4096 +
            (128 + c.toNat / 64 % 64 - 128) * 64 + (128 + c.toNat % 64 - 128) < 57344) := by
          rcases hv with h | ⟨ha, hb⟩ <;> omega
        simp only [List.cons_append, List.nil_append, utf8DecodeOne, if_neg hA, if_neg hB,
          if_neg hC, if_pos hD, utf8Dec3, if_pos hE, if_neg hover, if_neg hsur,
          Option.some.injEq, Prod.mk.injEq, and_true]
        omega
      · rw [if_neg h3]
        have hup : c.toNat < 1114112 := by rcases hv with h | ⟨_, hb⟩ <;> omega
        have hA : ¬ (240 + c.toNat / 262144 < 128) := by omega
        have hB : ¬ (240 + c.toNat / 262144 < 194) := by omega
        have hC : ¬ (240 + c.toNat / 262144 < 224) := by omega
        have hD : ¬ (240 + c.toNat / 262144 < 240) := by omega
        have hE : 240 + c.toNat / 262144 < 245 := by omega
        have hF : (128 ≤ 128 + c.toNat / 4096 % 64 ∧ 128 + c.toNat / 4096 % 64 < 192) ∧
            (128 ≤ 128 + c.toNat / 64 % 64 ∧ 128 + c.toNat / 64 % 64 < 192) ∧
            (128 ≤ 128 + c.toNat % 64 ∧ 128 + c.toNat % 64 < 192) := by omega
        have hover : ¬ ((240 + c.toNat / 262144 - 240) * 262144 +
            (128 + c.toNat / 4096 % 64 - 128) * 4096 + (128 + c.toNat / 64 % 64 - 128) * 64 +
            (128 + c.toNat % 64 - 128) < 65536) := by omega
        have hin : (240 + c.toNat / 262144 - 240) * 262144 +
            (128 + c.toNat / 4096 % 64 - 128) * 4096 + (128 + c.toNat / 64 % 64 - 128) * 64 +
            (128 + c.toNat % 64 - 128) < 1114112 := by omega
        simp only [List.cons_append, List.nil_append, utf8DecodeOne, if_neg hA, if_neg hB,
          if_neg hC, if_neg hD, if_pos hE, utf8Dec4, if_pos hF, if_neg hover, if_pos hin,
          Option.some.injEq, Prod.mk.injEq, and_true]
        omega

theorem utf8DecodeLoop_encode (s : List Char) :
    ∀ fuel, (utf8Encode s).length ≤ fuel → utf8DecodeLoop fuel (utf8Encode s) = some s := by
  induction s with
  | nil => intro fuel _; cases fuel <;> rfl
  | cons c cs ih =>
    intro fuel hfuel
    have hne : utf8EncodeChar c ≠ [] := utf8EncodeChar_ne_nil c
    rcases hchar : utf8EncodeChar c with _ | ⟨b, bs⟩
    · exact absurd hchar hne
    · have hlist : utf8Encode (c :: cs) = b :: (bs ++ utf8Encode cs) := by
        rw [utf8Encode, hchar, List.cons_append]
      have hlen : (utf8Encode (c :: cs)).length = bs.length + (utf8Encode cs).length + 1 := by
        rw [hlist]; simp
      rcases fuel with _ | fuel
      · omega
      · rw [hlist, utf8DecodeLoop]
        have hone : utf8DecodeOne (b :: (bs ++ utf8Encode cs)) = some (c.toNat, utf8Encode cs) := by
          rw [← List.cons_append, ← hchar]
          exact utf8DecodeOne_encodeChar c (utf8Encode cs)
        simp only [hone, ih fuel (by omega), Char.ofNat_toNat]

theorem utf8Decode_utf8Encode (s : List Char) : utf8Decode (utf8Encode s) = some s :=
  utf8DecodeLoop_encode s _ le_rfl

/-! ## Helper lemmas: JSON envelope round trip -/

theorem mk_data (s : String) : String.mk s.data = s := by cases s; rfl

theorem stripExact_append (p s : List Char) : stripExact p (p ++ s) = some s := by
  induction p with
  | nil => simp [stripExact]
  | cons c ps ih => simpa [stripExact] using ih

theorem splitAtQuote_append (v r : List Char) (hv : ∀ c ∈ v, c ≠ '"') :
    splitAtQuote (v ++ '"' :: r) = some (v, r) := by
  induction v with
  | nil => simp [splitAtQuote]
  | cons c vs ih =>
    have hcq : ¬ c = '"' := hv c (by simp)
    have hvs : ∀ x ∈ vs, x ≠ '"' := fun x hx => hv x (by simp [hx])
    simp only [List.cons_append, splitAtQuote, if_neg hcq, List.append_eq, ih hvs]

theorem parseEncryptedData_json (d : EncryptedData)
    (hn : ∀ c ∈ d.nonce.data, c ≠ '"') (hc : ∀ c ∈ d.ciphertext.data, c ≠ '"') :
    parseEncryptedData (encryptedDataJson d).data = some d := by
  have hdata : (encryptedDataJson d).data =
      jsonHead.data ++ (d.nonce.data ++ ('"' :: (jsonMid.data.tail ++
        (d.ciphertext.data ++ ('"' :: jsonTail.data.tail))))) := by
    rw [encryptedDataJson]
    simp only [String.data_append, List.append_assoc]
    rfl
  rw [parseEncryptedData, hdata]
  simp only [stripExact_append, splitAtQuote_append _ _ hn, splitAtQuote_append _ _ hc]
  simp only [if_true, mk_data]

/-! ## Helper lemmas: keyring and vault -/

theorem data_mk (l : List Char) : (String.mk l).data = l := rfl

theorem krGet_set_self (kr : Keyring) (n v : String) : krGet (krSet kr n v) n = some v := by
  simp [krGet, krSet, List.find?]

theorem krGet_set_ne (kr : Keyring) (n v m : String) (h : m ≠ n) :
    krGet (krSet kr n v) m = krGet kr m := by
  simp only [krGet, krSet, List.find?]
  have : (n == m) = false := by simp [Ne.symm h]
  simp [this]

theorem genBytes_length (n : Nat) (rng : Nat → Nat) : (genBytes n rng).length = n := by
  simp [genBytes]

theorem genBytes_lt (n : Nat) (rng : Nat → Nat) : ∀ b ∈ genBytes n rng, b < 256 := by
  intro b hb
  simp only [genBytes, List.mem_map] at hb
  rcases hb with ⟨i, _, rfl⟩
  exact Nat.mod_lt _ (by norm_num)

theorem keyValid_set (kr : Keyring) (k : List Nat) (n v : String)
    (hn : n ≠ ENCRYPTION_KEY_NAME) (h : keyValid kr k) : keyValid (krSet kr n v) k := by
  rcases h with ⟨s, hget, hdec, hlen⟩
  exact ⟨s, by rw [krGet_set_ne kr n v _ (Ne.symm hn)]; exact hget, hdec, hlen⟩

theorem keyValid_genBytes (kr : Keyring) (rng : Nat → Nat) :
    keyValid (krSet kr ENCRYPTION_KEY_NAME (String.mk (base64Encode (genBytes 32 rng))))
      (genBytes 32 rng) := by
  refine ⟨String.mk (base64Encode (genBytes 32 rng)), krGet_set_self _ _ _, ?_,
    genBytes_length _ _⟩
  rw [data_mk]
  exact base64_decode_encode _ (genBytes_lt _ _)

theorem goc_of_keyValid (kr : Keyring) (rng : Nat → Nat) (k : List Nat) (h : keyValid kr k) :
    SecureStorage.get_or_create_encryption_key kr rng = (.ok k, kr) := by
  rcases h with ⟨s, hget, hdec, hlen⟩
  simp only [SecureStorage.get_or_create_encryption_key, hget, hdec, if_pos hlen]

theorem goc_ok (kr : Keyring) (rng : Nat → Nat) : ∃ k kr1,
    SecureStorage.get_or_create_encryption_key kr rng = (.ok k, kr1) ∧ keyValid kr1 k ∧
    ∀ n, n ≠ ENCRYPTION_KEY_NAME → krGet kr1 n = krGet kr n := by
  rcases hget : krGet kr ENCRYPTION_KEY_NAME with _ | s
  · refine ⟨genBytes 32 rng, _, ?_, keyValid_genBytes kr rng, ?_⟩
    · simp only [SecureStorage.get_or_create_encryption_key, hget]
    · intro n hn
      exact krGet_set_ne kr ENCRYPTION_KEY_NAME _ n hn
  · rcases hdec : base64Decode s.data with _ | key
    · refine ⟨genBytes 32 rng, _, ?_, keyValid_genBytes kr rng, ?_⟩
      · simp only [SecureStorage.get_or_create_encryption_key, hget, hdec]
      · intro n hn
        exact krGet_set_ne kr ENCRYPTION_KEY_NAME _ n hn
    · by_cases hlen : key.length = 32
      · refine ⟨key, kr, ?_, ⟨s, hget, hdec, hlen⟩, fun n _ => rfl⟩
        simp only [SecureStorage.get_or_create_encryption_key, hget, hdec, if_pos hlen]
      · refine ⟨genBytes 32 rng, _, ?_, keyValid_genBytes kr rng, ?_⟩
        · simp only [SecureStorage.get_or_create_encryption_key, hget, hdec, if_neg hlen]
        · intro n hn
          exact krGet_set_ne kr ENCRYPTION_KEY_NAME _ n hn

theorem encrypt_of_keyValid (C : AeadCipher) (kr : Keyring) (kRng nRng : Nat → Nat)
    (v : String) (k : List Nat) (h : keyValid kr k) :
    SecureStorage.encrypt C kr kRng nRng v = (.ok (encStr C k nRng v), kr) := by
  simp only [SecureStorage.encrypt, goc_of_keyValid kr kRng k h, encStr]

theorem encrypt_ok (C : AeadCipher) (kr : Keyring) (kRng nRng : Nat → Nat) (v : String) :
    ∃ k kr1, SecureStorage.encrypt C kr kRng nRng v = (.ok (encStr C k nRng v), kr1) ∧
      keyValid kr1 k ∧ ∀ n, n ≠ ENCRYPTION_KEY_NAME → krGet kr1 n = krGet kr n := by
  rcases goc_ok kr kRng with ⟨k, kr1, hgoc, hkv, hframe⟩
  refine ⟨k, kr1, ?_, hkv, hframe⟩
  simp only [SecureStorage.encrypt, hgoc, encStr]

theorem decrypt_encStr (C : AeadCipher) (kr : Keyring) (kRng nRng : Nat → Nat)
    (v : String) (k : List Nat) (h : keyValid kr k) :
    SecureStorage.decrypt C kr kRng (encStr C k nRng v) = (.ok v, kr) := by
  have hklen : k.length = 32 := by rcases h with ⟨s, _, _, hlen⟩; exact hlen
  have hctbytes : ∀ b ∈ C.enc k (genBytes 12 nRng) (utf8Encode v.data), b < 256 :=
    C.enc_bytes_lt _ _ _ (utf8Encode_lt v.data)
  have hnq : ∀ c ∈ (String.mk (base64Encode (genBytes 12 nRng))).data, c ≠ '"' := by
    rw [data_mk]; exact base64Encode_ne_quote _
  have hcq : ∀ c ∈ (String.mk (base64Encode
      (C.enc k (genBytes 12 nRng) (utf8Encode v.data)))).data, c ≠ '"' := by
    rw [data_mk]; exact base64Encode_ne_quote _
  have hparse := parseEncryptedData_json
    ⟨String.mk (base64Encode (genBytes 12 nRng)),
     String.mk (base64Encode (C.enc k (genBytes 12 nRng) (utf8Encode v.data)))⟩ hnq hcq
  simp only [SecureStorage.decrypt, goc_of_keyValid kr kRng k h, encStr, hparse, data_mk,
    base64_decode_encode _ (genBytes_lt 12 nRng), base64_decode_encode _ hctbytes,
    C.dec_enc k _ _ hklen (genBytes_length 12 nRng) (utf8Encode_lt v.data),
    utf8Decode_utf8Encode, mk_data]

theorem store_of_keyValid (C : AeadCipher) (kr : Keyring) (kRng nRng : Nat → Nat)
    (name v : String) (k : List Nat) (h : keyValid kr k) :
    SecureStorage.store C kr kRng nRng name v =
      (.ok (), krSet kr name (encStr C k nRng v)) := by
  simp only [SecureStorage.store, encrypt_of_keyValid C kr kRng nRng v k h]

theorem store_ok (C : AeadCipher) (kr : Keyring) (kRng nRng : Nat → Nat) (name v : String) :
    ∃ k kr1, SecureStorage.store C kr kRng nRng name v =
      (.ok (), krSet kr1 name (encStr C k nRng v)) ∧ keyValid kr1 k ∧
      ∀ n, n ≠ ENCRYPTION_KEY_NAME → krGet kr1 n = krGet kr n := by
  rcases encrypt_ok C kr kRng nRng v with ⟨k, kr1, henc, hkv, hframe⟩
  refine ⟨k, kr1, ?_, hkv, hframe⟩
  simp only [SecureStorage.store, henc]

theorem retrieve_absent (C : AeadCipher) (kr : Keyring) (kRng : Nat → Nat) (name : String)
    (h : krGet kr name = none) :
    SecureStorage.retrieve C kr kRng name = (.ok none, kr) := by
  simp only [SecureStorage.retrieve, h]

theorem retrieve_of_stored (C : AeadCipher) (kr : Keyring) (kRng nRng : Nat → Nat)
    (name v : String) (k : List Nat) (hkv : keyValid kr k)
    (hget : krGet kr name = some (encStr C k nRng v)) :
    SecureStorage.retrieve C kr kRng name = (.ok (some v), kr) := by
  simp only [SecureStorage.retrieve, hget, decrypt_encStr C kr kRng nRng v k hkv]

/-! ## Helper lemmas: u64 arithmetic and the token bridges -/

theorem u64Mod_eq : u64Mod = 18446744073709551616 := by norm_num [u64Mod]

theorem u64Add_eq (a b : Nat) (h : a + b < u64Mod) : u64Add a b = a + b := by
  rw [u64Add]; exact Nat.mod_eq_of_lt h

theorem u64Sub_eq (a b : Nat) (hb : b ≤ a) (ha : a < u64Mod) : u64Sub a b = a - b := by
  rw [u64Sub, u64Mod_eq] at *
  omega

theorem u64Sub_underflow (a b : Nat) (h : a < b) (hb : b < u64Mod) :
    u64Sub a b = a + u64Mod - b := by
  rw [u64Sub, u64Mod_eq] at *
  omega

theorem store_token_ok (C : AeadCipher) (kr : Keyring) (kRng nR1 nR2 nR3 : Nat → Nat)
    (keys : BridgeKeys) (t : Token) (now : Nat)
    (h1 : keys.tokenKey ≠ ENCRYPTION_KEY_NAME)
    (h2 : keys.refreshKey ≠ ENCRYPTION_KEY_NAME)
    (h3 : keys.expiryKey ≠ ENCRYPTION_KEY_NAME) :
    ∃ k krF, Bridge.store_token C kr kRng nR1 nR2 nR3 keys t now = (.ok (), krF) ∧
      keyValid krF k ∧
      krGet krF keys.expiryKey =
        some (encStr C k nR3 (decString (u64Add now t.expires_in))) ∧
      (∀ rt, t.refresh_token = some rt → keys.refreshKey ≠ keys.expiryKey →
        krGet krF keys.refreshKey = some (encStr C k nR2 rt)) := by
  rcases store_ok C kr kRng nR1 keys.tokenKey t.access_token with ⟨k, kr1, hs1, hkv1, _⟩
  have hkv1' : keyValid (krSet kr1 keys.tokenKey (encStr C k nR1 t.access_token)) k :=
    keyValid_set _ _ _ _ h1 hkv1
  cases htr : t.refresh_token with
  | none =>
    have hs3 := store_of_keyValid C _ kRng nR3 keys.expiryKey
      (decString (u64Add now t.expires_in)) k hkv1'
    refine ⟨k, _, ?_, keyValid_set _ _ _ _ h3 hkv1', krGet_set_self _ _ _, ?_⟩
    · simp only [Bridge.store_token, hs1, htr, hs3]
    · intro rt hrt
      exact absurd hrt (by simp)
  | some rt =>
    have hs2 := store_of_keyValid C _ kRng nR2 keys.refreshKey rt k hkv1'
    have hkv2 : keyValid (krSet (krSet kr1 keys.tokenKey (encStr C k nR1 t.access_token))
        keys.refreshKey (encStr C k nR2 rt)) k := keyValid_set _ _ _ _ h2 hkv1'
    have hs3 := store_of_keyValid C _ kRng nR3 keys.expiryKey
      (decString (u64Add now t.expires_in)) k hkv2
    refine ⟨k, _, ?_, keyValid_set _ _ _ _ h3 hkv2, krGet_set_self _ _ _, ?_⟩
    · simp only [Bridge.store_token, hs1, htr, hs2, hs3]
    · intro rt' hrt' hne
      injection hrt' with h'
      subst h'
      rw [krGet_set_ne _ _ _ _ hne]
      exact krGet_set_self _ _ _

theorem is_token_expired_of_stored (C : AeadCipher) (kr : Keyring) (kRng nR : Nat → Nat)
    (keys : BridgeKeys) (now k e) (hkv : keyValid kr k)
    (hget : krGet kr keys.expiryKey = some (encStr C k nR (decString e)))
    (he : e < u64Mod) :
    Bridge.is_token_expired C kr kRng keys now = (.ok (decide (now ≥ u64Sub e 60)), kr) := by
  simp only [Bridge.is_token_expired,
    retrieve_of_stored C kr kRng nR keys.expiryKey (decString e) k hkv hget,
    parseU64_decString e he]

theorem is_token_expired_absent (C : AeadCipher) (kr : Keyring) (kRng : Nat → Nat)
    (keys : BridgeKeys) (now : Nat) (h : krGet kr keys.expiryKey = none) :
    Bridge.is_token_expired C kr kRng keys now = (.ok true, kr) := by
  simp only [Bridge.is_token_expired, retrieve_absent C kr kRng keys.expiryKey h]

/-! ## Claim theorems -/

/-- C4: an operation that fails on its first two invocations with a
recoverable error and succeeds on the third makes `retry_with_backoff`
return the third invocation's success value after exactly two backoff sleeps
of 1000 ms and 2000 ms (three invocations in total), matching the schedule
`base_delay * 2^(attempt-1)` with `base_delay = 1000` ms and
`max_attempts = 3`. -/
theorem retry_two_recoverable_failures_then_success {T : Type}
    (results : Nat → Except MilkError T) (e0 e1 : MilkError) (v : T)
    (h0 : results 0 = .error e0) (hr0 : e0.is_recoverable = true)
    (h1 : results 1 = .error e1) (hr1 : e1.is_recoverable = true)
    (h2 : results 2 = .ok v) :
    retry_with_backoff results = ⟨.ok v, [1000, 2000], 3⟩ ∧
    [1000, 2000] = [BASE_DELAY_MS * 2 ^ (1 - 1), BASE_DELAY_MS * 2 ^ (2 - 1)] ∧
    MAX_RETRIES = 3 := by
  refine ⟨?_, rfl, rfl⟩
  rw [retry_with_backoff, retryLoop_unfold, h0]
  simp only [MAX_RETRIES, BASE_DELAY_MS, hr0, if_true]
  norm_num
  rw [retryLoop_unfold, h1]
  simp only [MAX_RETRIES, BASE_DELAY_MS, hr1, if_true]
  norm_num
  rw [retryLoop_unfold, h2]
  simp [MAX_RETRIES]

/-- C4 witness at a concrete operation. -/
theorem retry_two_recoverable_failures_then_success_witness :
    retry_with_backoff (fun n => if n = 0 then .error (.NetworkTimeout "t")
      else if n = 1 then .error .RateLimitExceeded else .ok (42 : Nat)) =
      ⟨.ok 42, [1000, 2000], 3⟩ :=
  (retry_two_recoverable_failures_then_success
    (fun n => if n = 0 then .error (.NetworkTimeout "t")
      else if n = 1 then .error .RateLimitExceeded else .ok (42 : Nat))
    (.NetworkTimeout "t") .RateLimitExceeded 42 rfl rfl rfl rfl rfl).1

/-- C5: a first invocation failing with a non-recoverable error makes
`retry_with_backoff` return that error unchanged after exactly one
invocation and no backoff sleep; any invocation that is followed by another
one had failed with a recoverable error; and the classification marks
authentication failures and audio-device unavailability non-recoverable
while network timeouts, rate limiting and transient file corruption are
recoverable. -/
theorem retry_nonrecoverable_immediate {T : Type}
    (results : Nat → Except MilkError T) (e : MilkError)
    (h0 : results 0 = .error e) (hnr : e.is_recoverable = false) :
    retry_with_backoff results = ⟨.error e, [], 1⟩ ∧
    (∀ (others : Nat → Except MilkError T) (i : Nat),
      i + 1 < (retry_with_backoff others).calls →
      ∃ e', others i = .error e' ∧ e'.is_recoverable = true) ∧
    (∀ m, (MilkError.AuthenticationFailed m).is_recoverable = false) ∧
    MilkError.AudioDeviceUnavailable.is_recoverable = false ∧
    (∀ m, (MilkError.NetworkTimeout m).is_recoverable = true) ∧
    MilkError.RateLimitExceeded.is_recoverable = true ∧
    (∀ m, (MilkError.CorruptedFile m).is_recoverable = true) := by
  refine ⟨?_, retry_retried_recoverable, fun _ => rfl, rfl, fun _ => rfl, rfl, fun _ => rfl⟩
  rw [retry_with_backoff, retryLoop_unfold, h0]
  simp [MAX_RETRIES, hnr]

/-- C5 witness at a concrete operation. -/
theorem retry_nonrecoverable_immediate_witness :
    retry_with_backoff (fun _ => (.error .AudioDeviceUnavailable : Except MilkError Nat)) =
      ⟨.error .AudioDeviceUnavailable, [], 1⟩ :=
  (retry_nonrecoverable_immediate
    (fun _ => (.error .AudioDeviceUnavailable : Except MilkError Nat))
    .AudioDeviceUnavailable rfl rfl).1

/-- C9: `parse_duration` maps `PT1H2M3S` to 3,723,000 ms, `PT4M13S` to
253,000 ms and `PT30S` to 30,000 ms; and any input whose trimmed body
contains a non-digit character other than the unit letters `H`, `M`, `S`
(in particular a digit run terminated by an unrecognized unit letter)
yields a `ParseError`. -/
theorem parse_duration_spec :
    parse_duration "PT1H2M3S" = .ok 3723000 ∧
    parse_duration "PT4M13S" = .ok 253000 ∧
    parse_duration "PT30S" = .ok 30000 ∧
    (∀ s : String, (∃ c ∈ trimStartMatchesPT s.data,
        isAsciiDigit c = false ∧ c ≠ 'H' ∧ c ≠ 'M' ∧ c ≠ 'S') →
      ∃ msg, parse_duration s = .error (.ParseError msg)) := by
  refine ⟨rfl, rfl, rfl, ?_⟩
  intro s hbad
  exact parseDurationGo_error (trimStartMatchesPT s.data) 0 0 0 [] hbad

/-- C9 witness: a digit run terminated by the unit letter `X`. -/
theorem parse_duration_spec_witness :
    ∃ msg, parse_duration "PT1X3S" = .error (.ParseError msg) :=
  parse_duration_spec.2.2.2 "PT1X3S"
    ⟨'X', by decide, by decide, by decide, by decide, by decide⟩

/-- C8 counterexample: deleting a never-stored name does not return `Ok`;
the keyring's `NoEntry` outcome is propagated as a `KeyringError`. -/
theorem delete_missing_not_ok :
    (SecureStorage.delete [] "spotify_refresh_token").1 =
      .error (.KeyringError .NoEntry) ∧
    (SecureStorage.delete [] "spotify_refresh_token").1 ≠ .ok () := by
  refine ⟨rfl, ?_⟩
  intro h
  exact Except.noConfusion h

/-- C8 amended: `delete(name)` on a name with no stored entry returns the
keyring's `NoEntry` error wrapped as `StorageError::KeyringError` (the code
propagates every `delete_credential` error through `map_err(...)?`), so
delete is not idempotent; the keyring state is unchanged. -/
theorem delete_missing_errors (kr : Keyring) (name : String)
    (h : krGet kr name = none) :
    SecureStorage.delete kr name = (.error (.KeyringError .NoEntry), kr) := by
  simp only [SecureStorage.delete, h]

/-- C8 witness at a concrete never-stored name. -/
theorem delete_missing_errors_witness :
    SecureStorage.delete [] "youtube_api_key" =
      (.error (.KeyringError .NoEntry), []) :=
  delete_missing_errors [] "youtube_api_key" rfl

/-- C1: decrypting the result of encrypting any plaintext under the same
master key (the storage state `kr1` left by `encrypt`, and the same key
stream) returns exactly the plaintext: `decrypt(encrypt(P)) = Ok(P)`.  The
theorem holds for every cipher satisfying the AEAD contract, every starting
keyring state, every key/nonce randomness and every UTF-8 string `P`,
including the empty string. -/
theorem encrypt_decrypt_roundtrip (C : AeadCipher) (kr : Keyring)
    (kRng nRng : Nat → Nat) (P : String) :
    ∃ ct kr1, SecureStorage.encrypt C kr kRng nRng P = (.ok ct, kr1) ∧
      SecureStorage.decrypt C kr1 kRng ct = (.ok P, kr1) := by
  rcases encrypt_ok C kr kRng nRng P with ⟨k, kr1, henc, hkv, _⟩
  exact ⟨encStr C k nRng P, kr1, henc, decrypt_encStr C kr1 kRng nRng P k hkv⟩

/-- C6: `retrieve(name)` returns `Ok(None)` when no entry exists under
`name` (absence is not an error); and on an existing entry it returns
exactly the decryption outcome, so a payload that fails to deserialize,
base64-decode or decrypt surfaces that `StorageError` instead of being
masked as `Ok(None)`. -/
theorem retrieve_distinguishes_absent_from_corrupt (C : AeadCipher) (kr : Keyring)
    (kRng : Nat → Nat) (name : String) :
    (krGet kr name = none → SecureStorage.retrieve C kr kRng name = (.ok none, kr)) ∧
    (∀ s, krGet kr name = some s →
      SecureStorage.retrieve C kr kRng name =
        ((SecureStorage.decrypt C kr kRng s).1.map Option.some,
         (SecureStorage.decrypt C kr kRng s).2)) ∧
    (∀ s e kr1, krGet kr name = some s →
      SecureStorage.decrypt C kr kRng s = (.error e, kr1) →
      SecureStorage.retrieve C kr kRng name = (.error e, kr1)) := by
  refine ⟨fun h => retrieve_absent C kr kRng name h, ?_, ?_⟩
  · intro s hget
    simp only [SecureStorage.retrieve, hget]
    rcases hd : SecureStorage.decrypt C kr kRng s with ⟨r, kr1⟩
    cases r <;> rfl
  · intro s e kr1 hget hdec
    simp only [SecureStorage.retrieve, hget, hdec]

/-- C6 witness: an empty store yields `Ok(None)`; a store holding
undecryptable garbage yields the decryption outcome, not `Ok(None)`. -/
theorem retrieve_distinguishes_witness :
    SecureStorage.retrieve plainCipher [] (fun _ => 0) "spotify_access_token" =
      (.ok none, []) ∧
    SecureStorage.retrieve plainCipher [("spotify_access_token", "garbage")]
        (fun _ => 0) "spotify_access_token" =
      ((SecureStorage.decrypt plainCipher [("spotify_access_token", "garbage")]
          (fun _ => 0) "garbage").1.map Option.some,
       (SecureStorage.decrypt plainCipher [("spotify_access_token", "garbage")]
          (fun _ => 0) "garbage").2) :=
  ⟨(retrieve_distinguishes_absent_from_corrupt plainCipher [] (fun _ => 0)
      "spotify_access_token").1 rfl,
   (retrieve_distinguishes_absent_from_corrupt plainCipher
      [("spotify_access_token", "garbage")] (fun _ => 0) "spotify_access_token").2.1
      "garbage" rfl⟩

/-- C7: every success path of `get_or_create_encryption_key` returns a key
of exactly 32 bytes; a missing entry makes it generate 32 random bytes,
store their base64 text and return them; and a present entry whose decoded
value is not exactly 32 bytes (or does not decode) is silently regenerated
and overwritten the same way. -/
theorem get_or_create_key_32 (kr : Keyring) (rng : Nat → Nat) :
    (∀ k kr1, SecureStorage.get_or_create_encryption_key kr rng = (.ok k, kr1) →
      k.length = 32) ∧
    (krGet kr ENCRYPTION_KEY_NAME = none →
      SecureStorage.get_or_create_encryption_key kr rng =
        (.ok (genBytes 32 rng),
         krSet kr ENCRYPTION_KEY_NAME (String.mk (base64Encode (genBytes 32 rng))))) ∧
    (∀ s, krGet kr ENCRYPTION_KEY_NAME = some s →
      (∀ key, base64Decode s.data = some key → key.length ≠ 32) →
      SecureStorage.get_or_create_encryption_key kr rng =
        (.ok (genBytes 32 rng),
         krSet kr ENCRYPTION_KEY_NAME (String.mk (base64Encode (genBytes 32 rng))))) := by
  refine ⟨?_, ?_, ?_⟩
  · intro k kr1 h
    rcases goc_ok kr rng with ⟨k', kr1', hgoc, hkv, _⟩
    rw [h] at hgoc
    injection hgoc with h1 h2
    injection h1 with h1
    rcases hkv with ⟨s, _, _, hlen⟩
    rw [← h1] at hlen
    exact hlen
  · intro hget
    simp only [SecureStorage.get_or_create_encryption_key, hget]
  · intro s hget hbad
    rcases hdec : base64Decode s.data with _ | key
    · simp only [SecureStorage.get_or_create_encryption_key, hget, hdec]
    · simp only [SecureStorage.get_or_create_encryption_key, hget, hdec,
        if_neg (hbad key hdec)]

/-- C7 witness: the generate-and-store path on an empty keyring, with the
returned key of length 32. -/
theorem get_or_create_key_32_witness :
    SecureStorage.get_or_create_encryption_key [] (fun _ => 0) =
      (.ok (genBytes 32 (fun _ => 0)),
       krSet [] ENCRYPTION_KEY_NAME
         (String.mk (base64Encode (genBytes 32 (fun _ => 0))))) ∧
    (genBytes 32 (fun _ => 0)).length = 32 :=
  ⟨(get_or_create_key_32 [] (fun _ => 0)).2.1 rfl,
   (get_or_create_key_32 [] (fun _ => 0)).1 _ _
     ((get_or_create_key_32 [] (fun _ => 0)).2.1 rfl)⟩

/-- C2: saving a token at issuance time `T` with `expires_in = E` stores the
absolute expiry `T + E`; `is_token_expired` then answers `false` at time
`T + E - 61` and `true` at `T + E - 59` (the 60-second skew boundary), and
it answers `true` whenever no expiry record exists.  The embedding is shared
by the Spotify and YouTube bridges, which differ only in the `keys`
record. -/
theorem token_expiry_boundary (C : AeadCipher) (kr : Keyring)
    (kRng nR1 nR2 nR3 : Nat → Nat) (keys : BridgeKeys) (t : Token) (T : Nat)
    (h1 : keys.tokenKey ≠ ENCRYPTION_KEY_NAME)
    (h2 : keys.refreshKey ≠ ENCRYPTION_KEY_NAME)
    (h3 : keys.expiryKey ≠ ENCRYPTION_KEY_NAME)
    (hE : 61 ≤ T + t.expires_in) (hlt : T + t.expires_in < u64Mod) :
    (∀ kr' now, krGet kr' keys.expiryKey = none →
      Bridge.is_token_expired C kr' kRng keys now = (.ok true, kr')) ∧
    ∃ krF, Bridge.store_token C kr kRng nR1 nR2 nR3 keys t T = (.ok (), krF) ∧
      Bridge.is_token_expired C krF kRng keys (T + t.expires_in - 61) =
        (.ok false, krF) ∧
      Bridge.is_token_expired C krF kRng keys (T + t.expires_in - 59) =
        (.ok true, krF) := by
  refine ⟨fun kr' now h => is_token_expired_absent C kr' kRng keys now h, ?_⟩
  rcases store_token_ok C kr kRng nR1 nR2 nR3 keys t T h1 h2 h3 with
    ⟨k, krF, hst, hkv, hexp, _⟩
  rw [u64Add_eq _ _ hlt] at hexp
  have hsub : u64Sub (T + t.expires_in) 60 = T + t.expires_in - 60 :=
    u64Sub_eq _ _ (by omega) hlt
  refine ⟨krF, hst, ?_, ?_⟩
  · rw [is_token_expired_of_stored C krF kRng nR3 keys (T + t.expires_in - 61) k
      (T + t.expires_in) hkv hexp hlt, hsub]
    have hd : decide (T + t.expires_in - 61 ≥ T + t.expires_in - 60) = false := by
      rw [decide_eq_false_iff_not]
      omega
    rw [hd]
  · rw [is_token_expired_of_stored C krF kRng nR3 keys (T + t.expires_in - 59) k
      (T + t.expires_in) hkv hexp hlt, hsub]
    have hd : decide (T + t.expires_in - 59 ≥ T + t.expires_in - 60) = true := by
      rw [decide_eq_true_eq]
      omega
    rw [hd]

/-- C2 witness at a concrete token and times. -/
theorem token_expiry_boundary_witness :
    (Bridge.is_token_expired plainCipher [] (fun _ => 0) spotifyKeys 5 = (.ok true, [])) ∧
    ∃ krF, Bridge.store_token plainCipher [] (fun _ => 0) (fun _ => 1) (fun _ => 2)
        (fun _ => 3) spotifyKeys ⟨"acc", "Bearer", 3600, some "ref", none⟩ 1000 =
        (.ok (), krF) ∧
      Bridge.is_token_expired plainCipher krF (fun _ => 0) spotifyKeys (1000 + 3600 - 61) =
        (.ok false, krF) ∧
      Bridge.is_token_expired plainCipher krF (fun _ => 0) spotifyKeys (1000 + 3600 - 59) =
        (.ok true, krF) := by
  have h := token_expiry_boundary plainCipher [] (fun _ => 0) (fun _ => 1) (fun _ => 2)
    (fun _ => 3) spotifyKeys ⟨"acc", "Bearer", 3600, some "ref", none⟩ 1000
    (by decide) (by decide) (by decide) (by norm_num)
    (by rw [u64Mod_eq]; norm_num)
  exact ⟨h.1 [] 5 rfl, h.2⟩

/-- C3: when the vendor's refresh response omits `refresh_token`, the
refreshed token is completed with the previously stored refresh token and
the stored refresh-token secret still decrypts to the old value; when the
response carries a new `refresh_token`, the stored secret is replaced by
it.  The embedding is shared by the Spotify and YouTube bridges, which
differ only in the `keys` record. -/
theorem refresh_token_carryover (C : AeadCipher) (kr : Keyring)
    (kRng nR0 nR1 nR2 nR3 : Nat → Nat) (keys : BridgeKeys) (k : List Nat)
    (oldRt : String) (t0 : Token) (now : Nat)
    (h1 : keys.tokenKey ≠ ENCRYPTION_KEY_NAME)
    (h2 : keys.refreshKey ≠ ENCRYPTION_KEY_NAME)
    (h3 : keys.expiryKey ≠ ENCRYPTION_KEY_NAME)
    (hre : keys.refreshKey ≠ keys.expiryKey)
    (hkv : keyValid kr k)
    (hrt : krGet kr keys.refreshKey = some (encStr C k nR0 oldRt)) :
    (t0.refresh_token = none →
      ∃ krF, Bridge.refresh_token C kr kRng nR1 nR2 nR3 keys (.ok t0) now =
          (.ok { t0 with refresh_token := some oldRt }, krF) ∧
        (SecureStorage.retrieve C krF kRng keys.refreshKey).1 = .ok (some oldRt)) ∧
    (∀ newRt, t0.refresh_token = some newRt →
      ∃ krF, Bridge.refresh_token C kr kRng nR1 nR2 nR3 keys (.ok t0) now =
          (.ok t0, krF) ∧
        (SecureStorage.retrieve C krF kRng keys.refreshKey).1 = .ok (some newRt)) := by
  have hretr := retrieve_of_stored C kr kRng nR0 keys.refreshKey oldRt k hkv hrt
  constructor
  · intro htr
    rcases store_token_ok C kr kRng nR1 nR2 nR3 keys
      { t0 with refresh_token := some oldRt } now h1 h2 h3 with ⟨k2, krF, hst, hkv2, _, hrk⟩
    have hrkv : krGet krF keys.refreshKey = some (encStr C k2 nR2 oldRt) := hrk oldRt rfl hre
    refine ⟨krF, ?_, ?_⟩
    · simp only [Bridge.refresh_token, hretr, htr, hst]
    · rw [retrieve_of_stored C krF kRng nR2 keys.refreshKey oldRt k2 hkv2 hrkv]
  · intro newRt htr
    rcases store_token_ok C kr kRng nR1 nR2 nR3 keys t0 now h1 h2 h3 with
      ⟨k2, krF, hst, hkv2, _, hrk⟩
    have hrkv : krGet krF keys.refreshKey = some (encStr C k2 nR2 newRt) :=
      hrk newRt htr hre
    refine ⟨krF, ?_, ?_⟩
    · simp only [Bridge.refresh_token, hretr, htr, hst]
    · rw [retrieve_of_stored C krF kRng nR2 keys.refreshKey newRt k2 hkv2 hrkv]

/-- C3 witness: a concrete vault state holding an old refresh token, with a
response that omits the refresh token. -/
theorem refresh_token_carryover_witness :
    ∃ krF, Bridge.refresh_token plainCipher
        (krSet (krSet [] ENCRYPTION_KEY_NAME
            (String.mk (base64Encode (genBytes 32 (fun _ => 0)))))
          spotifyKeys.refreshKey
          (encStr plainCipher (genBytes 32 (fun _ => 0)) (fun _ => 9) "oldrt"))
        (fun _ => 0) (fun _ => 1) (fun _ => 2) (fun _ => 3) spotifyKeys
        (.ok ⟨"newacc", "Bearer", 3600, none, none⟩) 1000 =
        (.ok ⟨"newacc", "Bearer", 3600, some "oldrt", none⟩, krF) ∧
      (SecureStorage.retrieve plainCipher krF (fun _ => 0) spotifyKeys.refreshKey).1 =
        .ok (some "oldrt") := by
  have h := refresh_token_carryover plainCipher
    (krSet (krSet [] ENCRYPTION_KEY_NAME
        (String.mk (base64Encode (genBytes 32 (fun _ => 0)))))
      spotifyKeys.refreshKey
      (encStr plainCipher (genBytes 32 (fun _ => 0)) (fun _ => 9) "oldrt"))
    (fun _ => 0) (fun _ => 9) (fun _ => 1) (fun _ => 2) (fun _ => 3) spotifyKeys
    (genBytes 32 (fun _ => 0)) "oldrt" ⟨"newacc", "Bearer", 3600, none, none⟩ 1000
    (by decide) (by decide) (by decide) (by decide)
    ⟨String.mk (base64Encode (genBytes 32 (fun _ => 0))),
      by rw [krGet_set_ne _ _ _ _ (by decide)]; exact krGet_set_self _ _ _,
      by rw [data_mk]; exact base64_decode_encode _ (genBytes_lt _ _),
      genBytes_length _ _⟩
    (krGet_set_self _ _ _)
  exact h.1 rfl

/-- C10: a stored expiry record whose text parses to `e < 60` makes the
`expiry - 60` subtraction underflow `u64` arithmetic (in debug builds Rust
would panic; release builds wrap): the wrapped threshold is the enormous
`e + 2^64 - 60`, so `is_token_expired` reports `false` for any realistic
current time `now ≥ e`, instead of reporting the token expired. -/
theorem expiry_underflow_reports_unexpired (C : AeadCipher) (kr : Keyring)
    (kRng nRng : Nat → Nat) (keys : BridgeKeys) (e now : Nat)
    (h3 : keys.expiryKey ≠ ENCRYPTION_KEY_NAME)
    (he : e < 60) (hnow1 : e ≤ now) (hnow2 : now < e + u64Mod - 60) :
    u64Sub e 60 = e + u64Mod - 60 ∧
    ∀ r krF, SecureStorage.store C kr kRng nRng keys.expiryKey (decString e) = (r, krF) →
      r = .ok () ∧ Bridge.is_token_expired C krF kRng keys now = (.ok false, krF) := by
  have hM : (60 : Nat) < u64Mod := by rw [u64Mod_eq]; omega
  refine ⟨u64Sub_underflow e 60 he hM, ?_⟩
  intro r krF hstore
  rcases store_ok C kr kRng nRng keys.expiryKey (decString e) with ⟨k, kr1, hs, hkv, _⟩
  rw [hs] at hstore
  injection hstore with hr hkr
  subst hkr
  subst hr
  refine ⟨rfl, ?_⟩
  have hkv2 : keyValid (krSet kr1 keys.expiryKey (encStr C k nRng (decString e))) k :=
    keyValid_set _ _ _ _ h3 hkv
  rw [is_token_expired_of_stored C _ kRng nRng keys now k e hkv2 (krGet_set_self _ _ _)
    (by rw [u64Mod_eq]; omega)]
  rw [u64Sub_underflow e 60 he hM]
  have hd : decide (now ≥ e + u64Mod - 60) = false := by
    rw [decide_eq_false_iff_not]
    omega
  rw [hd]

/-- C10 witness: expiry text `5`, current time one billion. -/
theorem expiry_underflow_witness :
    u64Sub 5 60 = 5 + u64Mod - 60 ∧
    ((SecureStorage.store plainCipher [] (fun _ => 0) (fun _ => 1)
        spotifyKeys.expiryKey (decString 5)).1 = .ok () ∧
      Bridge.is_token_expired plainCipher
        (SecureStorage.store plainCipher [] (fun _ => 0) (fun _ => 1)
          spotifyKeys.expiryKey (decString 5)).2 (fun _ => 0) spotifyKeys 1000000000 =
        (.ok false,
         (SecureStorage.store plainCipher [] (fun _ => 0) (fun _ => 1)
           spotifyKeys.expiryKey (decString 5)).2)) := by
  have h := expiry_underflow_reports_unexpired plainCipher [] (fun _ => 0) (fun _ => 1)
    spotifyKeys 5 1000000000 (by decide) (by decide) (by decide)
    (by rw [u64Mod_eq]; norm_num)
  exact ⟨h.1, h.2 _ _ rfl⟩
